import Mathlib

/-!
Verification of the synchrosm object-matching engine and its data model.

This file is a shallow embedding of the relevant parts of the repository:

* `src/synchrosm/models.py`  — the `Node` dataclass, its custom hash-key
  equality, `NodeComparison`, `ComparisonResults`;
* `src/synchrosm/matching.py` — the haversine `distance` function and the
  `match_objects` matching engine (exact-id phase over a lookup dict,
  proximity phase over an r-tree);
* `src/synchrosm/main.py`    — the drift-detection loop of
  `compare_db_data_to_api`.

Modelling conventions:

* Python floats that take part in exact arithmetic and comparisons inside
  the engine (coordinates, rectangle bounds) are modelled as rationals `ℚ`;
  the transcendental haversine `distance` itself is modelled over `ℝ`.
  Because the haversine value is only ever used as a sort key, the engine
  is embedded parametrically in the distance key `D`; theorems about the
  selection logic hold for every `D`, in particular for the haversine.
* Python dicts are modelled as association lists where an insert conses a
  fresh binding in front and lookup (`dictGet`) returns the most recent
  binding, i.e. last write wins, exactly the dict semantics the code relies
  on.  Dict truthiness is emptiness of the list.
* `rtreelib` is an external dependency (not part of this repository); per
  the specification it is a bounding-box index supporting "query by
  rectangle, return overlapping items".  It is modelled as the list of
  inserted `(node, rect)` entries in insertion order, queried by closed
  rectangle overlap.
* A Python `TypeError` (arithmetic on `None` coordinates while building the
  index) is modelled by `Except.error ()`.
* Candidate objects are modelled with the fields the engine reads:
  a string identifier and rational coordinates.
-/

namespace Synchrosm

/-- Metadata values of a Node: Python str / int / bool scalars, or None. -/
inductive MetaV
  | str (s : String)
  | int (n : Int)
  | boolean (b : Bool)
  | null
deriving DecidableEq, Repr

/-- `models.Node`: an OSM node.  Latitude/longitude are `Option ℚ` because a
node deleted upstream has `None` coordinates. -/
structure Node where
  id : Int
  version : Int
  latitude : Option ℚ
  longitude : Option ℚ
  tags : List (String × String)
  metadata : List (String × MetaV)
deriving DecidableEq, Repr

/-- A candidate object to be matched (the fields of the input dicts that
`match_objects` reads: `id`, `latitude`, `longitude`). -/
structure Obj where
  id : String
  latitude : ℚ
  longitude : ℚ
deriving DecidableEq, Repr

/-- `rtreelib.Rect(min_x, min_y, max_x, max_y)`. -/
structure Rect where
  min_x : ℚ
  min_y : ℚ
  max_x : ℚ
  max_y : ℚ
deriving DecidableEq, Repr

/-- Closed rectangle overlap, the query predicate of the spatial index. -/
def Rect.intersects (a b : Rect) : Bool :=
  decide (a.min_x ≤ b.max_x) && decide (b.min_x ≤ a.max_x) &&
  decide (a.min_y ≤ b.max_y) && decide (b.min_y ≤ a.max_y)

/-- Python dict lookup `m.get(k)`: the most recent binding of `k`. -/
def dictGet (m : List (String × α)) (k : String) : Option α :=
  (m.find? (fun p => p.1 == k)).map (fun p => p.2)

/-- Python dict assignment `m[k] = v`: a fresh binding shadowing older ones
(last write wins under `dictGet`). -/
def dictInsert (m : List (String × α)) (k : String) (v : α) : List (String × α) :=
  (k, v) :: m

/-- Python `k in m.keys()`. -/
def dictHasKey (m : List (String × α)) (k : String) : Bool :=
  m.any (fun p => p.1 == k)

/-- matching.py lines 45-49: the exact-id lookup dict.  A node is inserted
under its value for `tag_with_id` only when that value is truthy, i.e. a
non-empty string, and only when `tag_with_id` itself is truthy. -/
def build_lookup (tag_with_id : String) (nodes : List Node) : List (String × Node) :=
  if tag_with_id ≠ "" then
    nodes.foldl
      (fun d node =>
        match dictGet node.tags tag_with_id with
        | some v => if v ≠ "" then dictInsert d v node else d
        | none => d)
      []
  else []

/-- matching.py lines 51-56: insert every node into the spatial index under
a rectangle inflated by 0.0001 degrees.  A node with `None` latitude or
longitude makes the arithmetic `node.longitude - 0.0001` raise a
`TypeError`, modelled as `Except.error ()`. -/
def build_rtree : List Node → Except Unit (List (Node × Rect))
  | [] => Except.ok []
  | node :: rest =>
    match node.longitude, node.latitude with
    | some lon, some lat =>
      (build_rtree rest).map
        (fun t => (node, Rect.mk (lon - 1/10000) (lat - 1/10000) (lon + 1/10000) (lat + 1/10000)) :: t)
    | _, _ => Except.error ()

/-- matching.py lines 63-68: the query rectangle around a candidate. -/
def searchArea (rtree_search_box : ℚ) (obj : Obj) : Rect :=
  Rect.mk (obj.longitude - rtree_search_box) (obj.latitude - rtree_search_box)
    (obj.longitude + rtree_search_box) (obj.latitude + rtree_search_box)

/-- matching.py line 69: `t.query(search_area)` — the index entries whose
rectangles overlap the query rectangle, in index (= insertion) order. -/
def queryResults (t : List (Node × Rect)) (rtree_search_box : ℚ) (obj : Obj) :
    List (Node × Rect) :=
  t.filter (fun e => e.2.intersects (searchArea rtree_search_box obj))

/-- matching.py lines 73-74: when `tag_with_id` is truthy, drop every query
result whose node has `tag_with_id` among its tag keys. -/
def survivors (tag_with_id : String) (t : List (Node × Rect)) (rtree_search_box : ℚ)
    (obj : Obj) : List (Node × Rect) :=
  if tag_with_id ≠ "" then
    (queryResults t rtree_search_box obj).filter (fun e => !(dictHasKey e.1.tags tag_with_id))
  else queryResults t rtree_search_box obj

/-- matching.py line 79: the sort key — the distance from the candidate to
an index entry (entries of a successfully built index always carry
coordinates, so the `getD` default is unreachable). -/
def distKey (D : ℚ → ℚ → ℚ → ℚ → ℚ) (obj : Obj) (e : Node × Rect) : ℚ :=
  D obj.latitude obj.longitude (e.1.latitude.getD 0) (e.1.longitude.getD 0)

/-- Stable insertion of one element into a key-sorted list (an element is
placed before the first existing element of larger-or-equal key). -/
def insertByKey (key : α → ℚ) (x : α) : List α → List α
  | [] => [x]
  | y :: ys => if key x ≤ key y then x :: y :: ys else y :: insertByKey key x ys

/-- Stable sort by key: the model of Python `sorted(results, key=...)`
(stable sorts are extensionally unique, so insertion sort is a faithful
model of Timsort). -/
def isortKey (key : α → ℚ) : List α → List α
  | [] => []
  | x :: xs => insertByKey key x (isortKey key xs)

/-- The first-encountered element of minimal key, `none` on the empty list.
This is the "minimum distance, ties broken by first encountered" selection
the specification describes. -/
def firstMinBy (key : α → ℚ) : List α → Option α
  | [] => none
  | x :: xs =>
    match firstMinBy key xs with
    | none => some x
    | some m => if key x ≤ key m then some x else some m

/-- matching.py lines 58-83: the per-candidate body of the matching loop.
Phase 1 fires when the lookup dict is truthy (non-empty) and holds the
candidate's id (a `Node` value is always truthy); otherwise the spatial
phase queries the index, filters, and takes the head of the stable sort by
distance, or `None` when nothing survives. -/
def match_one (D : ℚ → ℚ → ℚ → ℚ → ℚ) (lookup_dict : List (String × Node))
    (t : List (Node × Rect)) (tag_with_id : String) (rtree_search_box : ℚ)
    (obj : Obj) : Option Node :=
  if lookup_dict ≠ [] ∧ (dictGet lookup_dict obj.id).isSome then
    dictGet lookup_dict obj.id
  else if (survivors tag_with_id t rtree_search_box obj).length > 0 then
    ((isortKey (distKey D obj) (survivors tag_with_id t rtree_search_box obj)).head?).map
      (fun e => e.1)
  else none

/-- matching.py lines 32-92 (`match_objects`): build the lookup dict and the
spatial index, then resolve every candidate in input order.  The defaults of
the source are `tag_with_id = "ref"` and `rtree_search_box = 0.001`; the
logging and the optional database write-back are side effects outside the
matching result.  `D` abstracts the haversine distance key (see `distance`
below). -/
def match_objects (D : ℚ → ℚ → ℚ → ℚ → ℚ) (objects : List Obj) (nodes : List Node)
    (tag_with_id : String) (rtree_search_box : ℚ) :
    Except Unit (List (Option Node)) :=
  (build_rtree nodes).map
    (fun t => objects.map (match_one D (build_lookup tag_with_id nodes) t tag_with_id rtree_search_box))

/-- A computable stand-in distance key (squared flat-earth distance) used to
instantiate `D` in concrete witnesses; it is monotone in separation like the
haversine. -/
def flatDist (lat1 lon1 lat2 lon2 : ℚ) : ℚ :=
  (lat2 - lat1) * (lat2 - lat1) + (lon2 - lon1) * (lon2 - lon1)

/-! ### Dictionary lemmas -/

theorem dictGet_insert (m : List (String × α)) (k x : String) (v : α) :
    dictGet (dictInsert m k v) x = if k == x then some v else dictGet m x := by
  simp only [dictInsert, dictGet, List.find?_cons]
  by_cases h : k == x <;> simp [h]

theorem dictGet_isSome_iff (m : List (String × α)) (k : String) :
    (dictGet m k).isSome = dictHasKey m k := by
  induction m with
  | nil => rfl
  | cons p rest ih =>
    simp only [dictGet, dictHasKey, List.find?_cons, List.any_cons] at *
    by_cases h : p.1 == k <;> simp [h, ih]

theorem dictGet_some_ne_nil {m : List (String × α)} {k : String} {v : α}
    (h : dictGet m k = some v) : m ≠ [] := by
  intro hnil
  rw [hnil] at h
  simp [dictGet] at h

/-! ### Exact-id lookup table lemmas -/

/-- The predicate "node n would be inserted into the lookup table under
key v": its tag value under `tag` is the truthy string `v`. -/
def lookupPred (tag v : String) (n : Node) : Bool :=
  (dictGet n.tags tag).any (fun w => w == v && !(w == ""))

theorem build_lookup_fold_get (tag v : String) (nodes : List Node)
    (acc : List (String × Node)) :
    dictGet
      (nodes.foldl
        (fun d node =>
          match dictGet node.tags tag with
          | some w => if w ≠ "" then dictInsert d w node else d
          | none => d)
        acc) v =
      ((nodes.reverse.find? (lookupPred tag v)).or (dictGet acc v)) := by
  induction nodes generalizing acc with
  | nil => simp
  | cons n rest ih =>
    simp only [List.foldl_cons, List.reverse_cons, List.find?_append, ih, Option.or_assoc]
    congr 1
    rcases htg : dictGet n.tags tag with _ | w
    · simp [List.find?_cons, lookupPred, htg, Option.any]
    · by_cases hw : w = ""
      · subst hw
        simp [List.find?_cons, lookupPred, htg, Option.any]
      · simp only [htg, ne_eq, hw, not_false_eq_true, if_true, dictGet_insert,
          List.find?_cons, lookupPred, Option.any]
        by_cases hv : w = v
        · subst hv
          have hb : (w == "") = false := by simp [hw]
          simp [hb]
        · have hb : (w == v) = false := by simp [hv]
          simp [hb]

/-- The lookup table realizes "last node in iteration order wins": looking up
`v` finds the last node whose (truthy) tag value under `tag` equals `v`. -/
theorem build_lookup_get (tag : String) (htag : tag ≠ "") (v : String)
    (nodes : List Node) :
    dictGet (build_lookup tag nodes) v = nodes.reverse.find? (lookupPred tag v) := by
  simp only [build_lookup, ne_eq, htag, not_false_eq_true, if_true]
  rw [build_lookup_fold_get]
  simp [dictGet]

/-- Every value stored in the lookup table is a node whose tag value under
`tag` is the non-empty key it is stored under. -/
theorem build_lookup_values {tag v : String} {nodes : List Node} {n : Node}
    (h : dictGet (build_lookup tag nodes) v = some n) :
    dictGet n.tags tag = some v ∧ v ≠ "" := by
  by_cases htag : tag = ""
  · rw [build_lookup, if_neg (by simp [htag])] at h
    simp [dictGet] at h
  · rw [build_lookup_get tag htag v nodes] at h
    have hp := List.find?_some h
    rcases htg : dictGet n.tags tag with _ | w <;> rw [lookupPred, htg] at hp
    · simp [Option.any] at hp
    · simp only [Option.any] at hp
      rw [Bool.and_eq_true] at hp
      obtain ⟨h1, h2⟩ := hp
      have hv : w = v := by simpa using h1
      subst hv
      refine ⟨rfl, ?_⟩
      simpa using h2

/-! ### Stable sort and first-wins argmin lemmas -/

theorem isortKey_ne_nil (key : α → ℚ) (x : α) (l : List α) :
    insertByKey key x l ≠ [] := by
  cases l with
  | nil => simp [insertByKey]
  | cons y ys =>
    simp only [insertByKey]
    split <;> simp

theorem firstMinBy_eq_none_iff (key : α → ℚ) (l : List α) :
    firstMinBy key l = none ↔ l = [] := by
  cases l with
  | nil => simp [firstMinBy]
  | cons x xs =>
    rcases h : firstMinBy key xs with _ | m
    · simp only [firstMinBy, h]
      simp
    · simp only [firstMinBy, h]
      constructor
      · intro hc
        by_cases hle : key x ≤ key m
        · rw [if_pos hle] at hc
          cases hc
        · rw [if_neg hle] at hc
          cases hc
      · intro hc
        cases hc

/-- The head of the stable sort is the first-encountered element of minimal
key. -/
theorem isortKey_head (key : α → ℚ) (l : List α) :
    (isortKey key l).head? = firstMinBy key l := by
  induction l with
  | nil => rfl
  | cons x xs ih =>
    rcases hs : isortKey key xs with _ | ⟨y, ys⟩
    · have hnone : firstMinBy key xs = none := by rw [← ih, hs]; rfl
      simp only [isortKey, firstMinBy, hs, hnone, insertByKey]
      rfl
    · have hsome : firstMinBy key xs = some y := by rw [← ih, hs]; rfl
      simp only [isortKey, firstMinBy, hs, hsome, insertByKey]
      by_cases hle : key x ≤ key y
      · rw [if_pos hle, if_pos hle]
        rfl
      · rw [if_neg hle, if_neg hle]
        rfl

theorem firstMinBy_le (key : α → ℚ) (l : List α) (m : α)
    (h : firstMinBy key l = some m) : ∀ y ∈ l, key m ≤ key y := by
  induction l generalizing m with
  | nil => cases h
  | cons x xs ih =>
    rcases hx : firstMinBy key xs with _ | m₀
    · simp only [firstMinBy, hx] at h
      have hxs : xs = [] := (firstMinBy_eq_none_iff key xs).mp hx
      cases h
      subst hxs
      simp
    · simp only [firstMinBy, hx] at h
      by_cases hle : key x ≤ key m₀
      · rw [if_pos hle] at h
        cases h
        intro y hy
        rcases List.mem_cons.mp hy with hy | hy
        · subst hy
          exact le_rfl
        · exact le_trans hle (ih m₀ hx y hy)
      · rw [if_neg hle] at h
        cases h
        intro y hy
        rcases List.mem_cons.mp hy with hy | hy
        · subst hy
          exact le_of_lt (lt_of_not_le hle)
        · exact ih m hx y hy

/-- The first-wins part: everything strictly before the selected element in
the original order has strictly larger key. -/
theorem firstMinBy_decomp (key : α → ℚ) (l : List α) (m : α)
    (h : firstMinBy key l = some m) :
    ∃ l₁ l₂, l = l₁ ++ m :: l₂ ∧ ∀ y ∈ l₁, key m < key y := by
  induction l generalizing m with
  | nil => cases h
  | cons x xs ih =>
    rcases hx : firstMinBy key xs with _ | m₀
    · simp only [firstMinBy, hx] at h
      cases h
      exact ⟨[], xs, rfl, by simp⟩
    · simp only [firstMinBy, hx] at h
      by_cases hle : key x ≤ key m₀
      · rw [if_pos hle] at h
        cases h
        exact ⟨[], xs, rfl, by simp⟩
      · rw [if_neg hle] at h
        cases h
        obtain ⟨l₁, l₂, hl, hgt⟩ := ih m hx
        refine ⟨x :: l₁, l₂, by simp [hl], ?_⟩
        intro y hy
        rcases List.mem_cons.mp hy with hy | hy
        · subst hy
          exact lt_of_not_le hle
        · exact hgt y hy

theorem firstMinBy_mem (key : α → ℚ) (l : List α) (m : α)
    (h : firstMinBy key l = some m) : m ∈ l := by
  obtain ⟨l₁, l₂, hl, _⟩ := firstMinBy_decomp key l m h
  subst hl
  simp

/-! ### Spatial index construction lemmas -/

theorem build_rtree_ok_of_valid (nodes : List Node)
    (h : ∀ n ∈ nodes, n.latitude.isSome ∧ n.longitude.isSome) :
    ∃ t, build_rtree nodes = Except.ok t := by
  induction nodes with
  | nil => exact ⟨[], rfl⟩
  | cons n rest ih =>
    obtain ⟨hlat, hlon⟩ := h n (by simp)
    obtain ⟨t, ht⟩ := ih (fun x hx => h x (by simp [hx]))
    rcases hla : n.latitude with _ | la
    · rw [hla] at hlat; simp at hlat
    rcases hlo : n.longitude with _ | lo
    · rw [hlo] at hlon; simp at hlon
    exact ⟨(n, Rect.mk (lo - 1/10000) (la - 1/10000) (lo + 1/10000) (la + 1/10000)) :: t,
      by rw [build_rtree, hla, hlo, ht]; rfl⟩

theorem build_rtree_error_of_invalid (nodes : List Node)
    (h : ∃ n ∈ nodes, n.latitude = none ∨ n.longitude = none) :
    build_rtree nodes = Except.error () := by
  induction nodes with
  | nil => simp at h
  | cons n rest ih =>
    obtain ⟨n₀, hn₀, hbad⟩ := h
    rcases List.mem_cons.mp hn₀ with hh | hh
    · subst hh
      rcases hbad with hbad | hbad
      · simp [build_rtree, hbad]
      · simp [build_rtree, hbad]
    · rcases hla : n.latitude with _ | la
      · simp [build_rtree, hla]
      rcases hlo : n.longitude with _ | lo
      · simp [build_rtree, hla, hlo]
      simp [build_rtree, hla, hlo, ih ⟨n₀, hh, hbad⟩, Except.map]

/-- Every entry of a successfully built index is one of the input nodes,
boxed by its inflated rectangle. -/
theorem build_rtree_mem {nodes : List Node} {t : List (Node × Rect)}
    (h : build_rtree nodes = Except.ok t) : ∀ e ∈ t, e.1 ∈ nodes := by
  induction nodes generalizing t with
  | nil =>
    simp only [build_rtree] at h
    cases h
    simp
  | cons n rest ih =>
    simp only [build_rtree] at h
    rcases hla : n.latitude with _ | la <;> rw [hla] at h
    · simp at h
    rcases hlo : n.longitude with _ | lo <;> rw [hlo] at h
    · simp at h
    rcases hr : build_rtree rest with _ | t₀ <;> rw [hr] at h
    · simp [Except.map] at h
    simp only [Except.map] at h
    cases h
    intro e he
    rcases List.mem_cons.mp he with he | he
    · subst he; simp
    · simp [ih hr e he]

/-! ### Matching engine decomposition lemmas -/

/-- A successful run is the per-candidate map over a successfully built
index. -/
theorem match_objects_ok {D : ℚ → ℚ → ℚ → ℚ → ℚ} {objects : List Obj}
    {nodes : List Node} {tag : String} {box : ℚ} {res : List (Option Node)}
    (h : match_objects D objects nodes tag box = Except.ok res) :
    ∃ t, build_rtree nodes = Except.ok t ∧
      res = objects.map (match_one D (build_lookup tag nodes) t tag box) := by
  rcases hr : build_rtree nodes with _ | t
  · rw [match_objects, hr] at h
    simp [Except.map] at h
  · rw [match_objects, hr] at h
    simp only [Except.map, Except.ok.injEq] at h
    exact ⟨t, rfl, h.symm⟩

/-- The i-th result is the outcome of `match_one` on the i-th object. -/
theorem match_objects_get {D : ℚ → ℚ → ℚ → ℚ → ℚ} {objects : List Obj}
    {nodes : List Node} {tag : String} {box : ℚ} {res : List (Option Node)}
    {t : List (Node × Rect)} {i : ℕ} {oi : Obj}
    (h : match_objects D objects nodes tag box = Except.ok res)
    (ht : build_rtree nodes = Except.ok t)
    (hoi : objects[i]? = some oi) :
    res[i]? = some (match_one D (build_lookup tag nodes) t tag box oi) := by
  obtain ⟨t₀, ht₀, hres⟩ := match_objects_ok h
  rw [ht₀] at ht
  cases ht
  subst hres
  simp [List.getElem?_map, hoi]

/-- When phase 1 does not fire, the outcome is the first-wins argmin of the
distance key over the surviving query results. -/
theorem match_one_spatial (D : ℚ → ℚ → ℚ → ℚ → ℚ) (lookup : List (String × Node))
    (t : List (Node × Rect)) (tag : String) (box : ℚ) (obj : Obj)
    (hph1 : ¬(lookup ≠ [] ∧ (dictGet lookup obj.id).isSome)) :
    match_one D lookup t tag box obj =
      Option.map Prod.fst (firstMinBy (distKey D obj) (survivors tag t box obj)) := by
  rw [match_one, if_neg hph1]
  rcases hs : survivors tag t box obj with _ | ⟨e, es⟩
  · simp [firstMinBy]
  · rw [if_pos (by simp), isortKey_head]

/-! ### Helper: phase-1 resolution -/

theorem match_one_phase1 (D : ℚ → ℚ → ℚ → ℚ → ℚ) (lookup : List (String × Node))
    (t : List (Node × Rect)) (tag : String) (box : ℚ) (obj : Obj) (p : Node)
    (hp : dictGet lookup obj.id = some p) :
    match_one D lookup t tag box obj = some p := by
  rw [match_one, if_pos ⟨dictGet_some_ne_nil hp, by rw [hp]; rfl⟩, hp]

/-! ### Concrete fixtures used by witnesses and counterexamples -/

/-- A node carrying the id-tag value "A" at the origin. -/
def nodeRefA : Node := ⟨1, 1, some 0, some 0, [("ref", "A")], []⟩

/-- A second node also carrying "A", later in iteration order. -/
def nodeRefA2 : Node := ⟨2, 1, some 10, some 10, [("ref", "A")], []⟩

/-- A node deleted upstream: both coordinates absent. -/
def nodeNoCoords : Node := ⟨3, 2, none, none, [("ref", "B")], []⟩

/-- An untagged node at (50, 20). -/
def nodePlain : Node := ⟨4, 1, some 50, some 20, [], []⟩

/-- An untagged node slightly north of `nodePlain`. -/
def nodePlainFar : Node := ⟨5, 1, some (50 + 5/10000), some 20, [], []⟩

/-- A node carrying the non-empty id-tag value "X", adjacent to `objNear`. -/
def nodeTaggedNear : Node := ⟨6, 1, some 50, some 20, [("ref", "X")], []⟩

/-- A node whose id-tag value is the empty string. -/
def nodeEmptyTag : Node := ⟨7, 1, some 50, some 20, [("ref", "")], []⟩

/-- A candidate with identifier "A" at the origin. -/
def objA : Obj := ⟨"A", 0, 0⟩

/-- A second candidate, far away, with the same identifier "A". -/
def objA2 : Obj := ⟨"A", 50, 50⟩

/-- A candidate with identifier "Z" just next to (50, 20). -/
def objNear : Obj := ⟨"Z", 50 + 1/10000, 20⟩

/-! ### Claim theorems: the matching engine -/

/-- C1, counterexample: the engine performs no claiming, so two candidates
with the same identifier are both matched to the same known point — the
non-None entries of the result are not pairwise distinct. -/
theorem C1_counterexample :
    match_objects flatDist [objA, objA2] [nodeRefA] "ref" (1/1000) =
      Except.ok [some nodeRefA, some nodeRefA] ∧
    ¬ (([some nodeRefA, some nodeRefA] : List (Option Node)).filterMap id).Nodup := by
  exact ⟨rfl, by simp⟩

/-- C1 (amended): `match_objects` never removes a matched point from the
lookup table, so whenever the exact-id lookup maps a candidate's identifier
to a point `p`, every candidate with that identifier — first or later in
input order — is matched to the same `p`. -/
theorem C1_amended_duplicate_matches (D : ℚ → ℚ → ℚ → ℚ → ℚ) (objects : List Obj)
    (nodes : List Node) (tag : String) (box : ℚ) (res : List (Option Node))
    (i j : ℕ) (oi oj : Obj) (p : Node)
    (hok : match_objects D objects nodes tag box = Except.ok res)
    (hoi : objects[i]? = some oi) (hoj : objects[j]? = some oj)
    (hid : oj.id = oi.id)
    (hp : dictGet (build_lookup tag nodes) oi.id = some p) :
    res[i]? = some (some p) ∧ res[j]? = some (some p) := by
  obtain ⟨t, ht, hres⟩ := match_objects_ok hok
  subst hres
  constructor
  · rw [List.getElem?_map, hoi]
    simp only [Option.map]
    rw [match_one_phase1 D _ t tag box oi p hp]
  · rw [List.getElem?_map, hoj]
    simp only [Option.map]
    rw [match_one_phase1 D _ t tag box oj p (by rw [hid]; exact hp)]

/-- C1, witness for the amended theorem: both candidates with identifier "A"
are matched to the single point carrying ref="A". -/
theorem C1_amended_witness :
    ([some nodeRefA, some nodeRefA] : List (Option Node))[0]? = some (some nodeRefA) ∧
    ([some nodeRefA, some nodeRefA] : List (Option Node))[1]? = some (some nodeRefA) :=
  C1_amended_duplicate_matches flatDist [objA, objA2] [nodeRefA] "ref" (1/1000)
    [some nodeRefA, some nodeRefA] 0 1 objA objA2 nodeRefA
    rfl rfl rfl rfl (by rfl)

/-- C2, counterexample: a known point with absent coordinates makes
`match_objects` raise a `TypeError` while building the spatial index — it
does not complete, and no candidate receives a result. -/
theorem C2_counterexample :
    nodeNoCoords.latitude = none ∧
    match_objects flatDist [objA] [nodeNoCoords] "ref" (1/1000) = Except.error () :=
  ⟨rfl, rfl⟩

/-- C2 (amended): whenever any known point has an absent latitude or
longitude, `match_objects` aborts with a `TypeError` during index
construction (before matching any candidate); no exclusion from the spatial
index takes place. -/
theorem C2_amended_raises (D : ℚ → ℚ → ℚ → ℚ → ℚ) (objects : List Obj)
    (nodes : List Node) (tag : String) (box : ℚ) (n : Node)
    (hn : n ∈ nodes) (hbad : n.latitude = none ∨ n.longitude = none) :
    match_objects D objects nodes tag box = Except.error () := by
  rw [match_objects, build_rtree_error_of_invalid nodes ⟨n, hn, hbad⟩]
  rfl

/-- C2, witness for the amended theorem. -/
theorem C2_amended_witness :
    match_objects flatDist [objA] [nodeNoCoords] "ref" (1/1000) = Except.error () :=
  C2_amended_raises flatDist [objA] [nodeNoCoords] "ref" (1/1000) nodeNoCoords
    (by simp) (Or.inl rfl)

/-- C3: with a non-empty id tag, the exact-id lookup maps each truthy tag
value to the last node (in iteration order) carrying it, and a candidate
whose identifier is a key of the lookup is matched to the mapped point
immediately — for every distance function, hence regardless of distance. -/
theorem C3_exact_id_phase (D : ℚ → ℚ → ℚ → ℚ → ℚ) (objects : List Obj)
    (nodes : List Node) (tag : String) (box : ℚ) (res : List (Option Node))
    (v : String) (i : ℕ) (oi : Obj) (p : Node)
    (htag : tag ≠ "")
    (hok : match_objects D objects nodes tag box = Except.ok res)
    (hoi : objects[i]? = some oi)
    (hp : dictGet (build_lookup tag nodes) oi.id = some p) :
    dictGet (build_lookup tag nodes) v = nodes.reverse.find? (lookupPred tag v) ∧
    res[i]? = some (some p) := by
  refine ⟨build_lookup_get tag htag v nodes, ?_⟩
  obtain ⟨t, ht, hres⟩ := match_objects_ok hok
  subst hres
  rw [List.getElem?_map, hoi]
  simp only [Option.map]
  rw [match_one_phase1 D _ t tag box oi p hp]

/-- C3, witness: with two nodes sharing ref="A", the later one wins the
lookup and the candidate "A" is matched to it despite being at distance 0
from the earlier one. -/
theorem C3_witness :
    dictGet (build_lookup "ref" [nodeRefA, nodeRefA2]) "A" =
      ([nodeRefA, nodeRefA2] : List Node).reverse.find? (lookupPred "ref" "A") ∧
    ([some nodeRefA2] : List (Option Node))[0]? = some (some nodeRefA2) :=
  C3_exact_id_phase flatDist [objA] [nodeRefA, nodeRefA2] "ref" (1/1000)
    [some nodeRefA2] "A" 0 objA nodeRefA2
    (by decide) rfl rfl (by rfl)

/-- C4: with a non-empty id tag, a known point carrying a non-empty value
under the id-tag key is never the proximity-phase result for a candidate the
exact-id phase did not resolve — even when it is nearest within the search
rectangle — and when every in-radius point carries such a value the
candidate is unmatched. -/
theorem C4_tagged_excluded_from_proximity (D : ℚ → ℚ → ℚ → ℚ → ℚ)
    (objects : List Obj) (nodes : List Node) (tag : String) (box : ℚ)
    (res : List (Option Node)) (t : List (Node × Rect)) (i : ℕ) (oi : Obj)
    (p : Node) (v : String)
    (htag : tag ≠ "")
    (hok : match_objects D objects nodes tag box = Except.ok res)
    (ht : build_rtree nodes = Except.ok t)
    (hoi : objects[i]? = some oi)
    (hpv : dictGet p.tags tag = some v) (hv : v ≠ "")
    (hph1 : ¬(build_lookup tag nodes ≠ [] ∧
      (dictGet (build_lookup tag nodes) oi.id).isSome)) :
    res[i]? ≠ some (some p) ∧
    ((∀ e ∈ queryResults t box oi, ∃ w, dictGet e.1.tags tag = some w ∧ w ≠ "") →
      res[i]? = some none) := by
  have hres : res[i]? = some (match_one D (build_lookup tag nodes) t tag box oi) :=
    match_objects_get hok ht hoi
  have hsp := match_one_spatial D (build_lookup tag nodes) t tag box oi hph1
  have hk : dictHasKey p.tags tag = true := by
    rw [← dictGet_isSome_iff, hpv]
    rfl
  constructor
  · rw [hres, hsp]
    intro hcontra
    injection hcontra with hcontra
    rcases hfm : firstMinBy (distKey D oi) (survivors tag t box oi) with _ | m
    · rw [hfm] at hcontra
      cases hcontra
    · rw [hfm] at hcontra
      simp only [Option.map] at hcontra
      injection hcontra with hm1
      have hmem := firstMinBy_mem _ _ _ hfm
      rw [survivors, if_pos htag] at hmem
      have hflt := (List.mem_filter.mp hmem).2
      rw [hm1] at hflt
      simp [hk] at hflt
  · intro hall
    have hsurv : survivors tag t box oi = [] := by
      rw [survivors, if_pos htag]
      apply List.filter_eq_nil_iff.mpr
      intro e he
      obtain ⟨w, hw, hwne⟩ := hall e he
      have : dictHasKey e.1.tags tag = true := by
        rw [← dictGet_isSome_iff, hw]
        rfl
      simp [this]
    rw [hres, hsp, hsurv]
    rfl

/-- C4, witness: a point with ref="X" directly adjacent to a candidate with
no exact-id hit is not matched; since it is the only in-radius point, the
candidate gets the no-match marker. -/
theorem C4_witness :
    ([none] : List (Option Node))[0]? ≠ some (some nodeTaggedNear) ∧
    ([none] : List (Option Node))[0]? = some none := by
  have h := C4_tagged_excluded_from_proximity flatDist [objNear] [nodeTaggedNear] "ref"
    (1/1000) [none]
    [(nodeTaggedNear, Rect.mk (20 - 1/10000) (50 - 1/10000) (20 + 1/10000) (50 + 1/10000))]
    0 objNear nodeTaggedNear "X"
    (by decide)
    (by
      norm_num [match_objects, match_one, build_lookup, build_rtree, survivors, queryResults,
        searchArea, Rect.intersects, dictGet, dictHasKey, dictInsert, isortKey, insertByKey,
        distKey, flatDist, objNear, nodeTaggedNear, Except.map]
      intro h1 h2 h3 h4 hz
      exact absurd hz (by decide))
    rfl rfl rfl (by decide) (by decide)
  refine ⟨h.1, h.2 ?_⟩
  intro e he
  norm_num [queryResults, searchArea, Rect.intersects, nodeTaggedNear, objNear] at he
  refine ⟨"X", ?_, by decide⟩
  rw [he]
  rfl

/-- C5: for a candidate the exact-id phase did not resolve, the result is
the first-encountered minimum of the distance key over the surviving spatial
query results: it attains the minimal distance, every earlier survivor is
strictly farther, and an empty surviving set yields the no-match marker. -/
theorem C5_nearest_selected (D : ℚ → ℚ → ℚ → ℚ → ℚ) (objects : List Obj)
    (nodes : List Node) (tag : String) (box : ℚ) (res : List (Option Node))
    (t : List (Node × Rect)) (i : ℕ) (oi : Obj)
    (hok : match_objects D objects nodes tag box = Except.ok res)
    (ht : build_rtree nodes = Except.ok t)
    (hoi : objects[i]? = some oi)
    (hph1 : ¬(build_lookup tag nodes ≠ [] ∧
      (dictGet (build_lookup tag nodes) oi.id).isSome)) :
    res[i]? = some (Option.map Prod.fst
      (firstMinBy (distKey D oi) (survivors tag t box oi))) ∧
    (∀ m, firstMinBy (distKey D oi) (survivors tag t box oi) = some m →
      (∀ y ∈ survivors tag t box oi, distKey D oi m ≤ distKey D oi y) ∧
      ∃ l₁ l₂, survivors tag t box oi = l₁ ++ m :: l₂ ∧
        ∀ y ∈ l₁, distKey D oi m < distKey D oi y) ∧
    (survivors tag t box oi = [] → res[i]? = some none) := by
  have hres : res[i]? = some (match_one D (build_lookup tag nodes) t tag box oi) :=
    match_objects_get hok ht hoi
  have hsp := match_one_spatial D (build_lookup tag nodes) t tag box oi hph1
  refine ⟨by rw [hres, hsp], ?_, ?_⟩
  · intro m hm
    exact ⟨firstMinBy_le _ _ _ hm, firstMinBy_decomp _ _ _ hm⟩
  · intro hempty
    rw [hres, hsp, hempty]
    rfl

/-- C5, witness: among two untagged points within the search rectangle the
candidate is matched to the strictly nearer one. -/
theorem C5_witness :
    ([some nodePlain] : List (Option Node))[0]? = some (some nodePlain) := by
  have h := (C5_nearest_selected flatDist [objNear] [nodePlain, nodePlainFar] "ref"
    (1/1000) [some nodePlain]
    [(nodePlain, Rect.mk (20 - 1/10000) (50 - 1/10000) (20 + 1/10000) (50 + 1/10000)),
     (nodePlainFar, Rect.mk (20 - 1/10000) (50 + 5/10000 - 1/10000) (20 + 1/10000) (50 + 5/10000 + 1/10000))]
    0 objNear
    (by norm_num [match_objects, match_one, build_lookup, build_rtree, survivors, queryResults,
      searchArea, Rect.intersects, dictGet, dictHasKey, dictInsert, isortKey, insertByKey,
      distKey, flatDist, objNear, nodePlain, nodePlainFar, Except.map])
    rfl rfl (by decide)).1
  rw [h]
  norm_num [survivors, queryResults, searchArea, Rect.intersects, dictGet, dictHasKey,
    firstMinBy, distKey, flatDist, objNear, nodePlain, nodePlainFar]

/-- C7: a successful run returns one entry per candidate, in input order:
the list has the same length as the input and the i-th entry is the
per-candidate outcome of the i-th object. -/
theorem C7_shape_preserved (D : ℚ → ℚ → ℚ → ℚ → ℚ) (objects : List Obj)
    (nodes : List Node) (tag : String) (box : ℚ) (res : List (Option Node))
    (t : List (Node × Rect)) (i : ℕ) (oi : Obj)
    (hok : match_objects D objects nodes tag box = Except.ok res)
    (ht : build_rtree nodes = Except.ok t)
    (hoi : objects[i]? = some oi) :
    res.length = objects.length ∧
    res[i]? = some (match_one D (build_lookup tag nodes) t tag box oi) := by
  obtain ⟨t₀, ht₀, hres⟩ := match_objects_ok hok
  rw [ht₀] at ht
  injection ht with ht
  subst ht
  subst hres
  refine ⟨List.length_map _ _, ?_⟩
  rw [List.getElem?_map, hoi]
  simp only [Option.map]

/-- C7, witness. -/
theorem C7_witness :
    ([some nodeRefA] : List (Option Node)).length = ([objA] : List Obj).length ∧
    ([some nodeRefA] : List (Option Node))[0]? =
      some (match_one flatDist (build_lookup "ref" [nodeRefA])
        [(nodeRefA, Rect.mk (0 - 1/10000) (0 - 1/10000) (0 + 1/10000) (0 + 1/10000))]
        "ref" (1/1000) objA) :=
  C7_shape_preserved flatDist [objA] [nodeRefA] "ref" (1/1000) [some nodeRefA]
    [(nodeRefA, Rect.mk (0 - 1/10000) (0 - 1/10000) (0 + 1/10000) (0 + 1/10000))]
    0 objA rfl rfl rfl

/-- C10: with a non-empty id tag, a known point whose id-tag value is the
empty string can never be matched: it is absent from the exact-id lookup
(only truthy values are inserted) and the proximity filter removes it (it
has the key), so no result entry ever names it. -/
theorem C10_empty_tag_value_never_matched (D : ℚ → ℚ → ℚ → ℚ → ℚ)
    (objects : List Obj) (nodes : List Node) (tag : String) (box : ℚ)
    (res : List (Option Node)) (i : ℕ) (v : String) (p : Node)
    (htag : tag ≠ "")
    (hok : match_objects D objects nodes tag box = Except.ok res)
    (hp : dictGet p.tags tag = some "") :
    dictGet (build_lookup tag nodes) v ≠ some p ∧ res[i]? ≠ some (some p) := by
  have hlook : ∀ u, dictGet (build_lookup tag nodes) u ≠ some p := by
    intro u hu
    obtain ⟨hw, hne⟩ := build_lookup_values hu
    rw [hp] at hw
    injection hw with hw
    exact hne hw.symm
  have hk : dictHasKey p.tags tag = true := by
    rw [← dictGet_isSome_iff, hp]
    rfl
  refine ⟨hlook v, ?_⟩
  obtain ⟨t, ht, hres⟩ := match_objects_ok hok
  subst hres
  rcases hoi : objects[i]? with _ | oi
  · rw [List.getElem?_map, hoi]
    simp
  · rw [List.getElem?_map, hoi]
    simp only [Option.map]
    intro hcontra
    injection hcontra with hcontra
    by_cases hph1 : build_lookup tag nodes ≠ [] ∧
        (dictGet (build_lookup tag nodes) oi.id).isSome
    · rw [match_one, if_pos hph1] at hcontra
      exact hlook oi.id hcontra
    · rw [match_one_spatial D _ t tag box oi hph1] at hcontra
      rcases hfm : firstMinBy (distKey D oi) (survivors tag t box oi) with _ | m
      · rw [hfm] at hcontra
        cases hcontra
      · rw [hfm] at hcontra
        simp only [Option.map] at hcontra
        injection hcontra with hm1
        have hmem := firstMinBy_mem _ _ _ hfm
        rw [survivors, if_pos htag] at hmem
        have hflt := (List.mem_filter.mp hmem).2
        rw [hm1] at hflt
        simp [hk] at hflt

/-- C10, witness: a point whose ref tag is the empty string, adjacent to the
candidate, is neither in the lookup nor matched; the candidate is unmatched.
-/
theorem C10_witness :
    dictGet (build_lookup "ref" [nodeEmptyTag]) "Z" ≠ some nodeEmptyTag ∧
    ([none] : List (Option Node))[0]? ≠ some (some nodeEmptyTag) :=
  C10_empty_tag_value_never_matched flatDist [objNear] [nodeEmptyTag] "ref" (1/1000)
    [none] 0 "Z" nodeEmptyTag (by decide)
    (by norm_num [match_objects, match_one, build_lookup, build_rtree, survivors, queryResults,
      searchArea, Rect.intersects, dictGet, dictHasKey, dictInsert, isortKey, insertByKey,
      distKey, flatDist, objNear, nodeEmptyTag, Except.map])
    rfl

/-! ### The haversine distance (matching.py lines 16-29), over the reals -/

/-- Python math.radians. -/
noncomputable def radians (x : ℝ) : ℝ := x * (Real.pi / 180)

/-- matching.py lines 16-29: haversine great-circle distance in meters with
the fixed Earth radius 6372800 m.  The Python floats are modelled as reals;
the code rebinds lat1/lat2 to their radian values, modelled by lat1r/lat2r.
-/
noncomputable def distance (lat1 lon1 lat2 lon2 : ℝ) : ℝ :=
  let radius : ℝ := 6372800
  let latitude_difference := radians (lat2 - lat1)
  let longitude_difference := radians (lon2 - lon1)
  let lat1r := radians lat1
  let lat2r := radians lat2
  let a := Real.sin (latitude_difference / 2) ^ 2 +
    Real.cos lat1r * Real.cos lat2r * Real.sin (longitude_difference / 2) ^ 2
  let c := 2 * Real.arcsin (Real.sqrt a)
  radius * c

/-- C6: the distance function is symmetric in its two coordinate pairs and
is exactly 0 on identical pairs. -/
theorem C6_distance_symm_and_zero (lat1 lon1 lat2 lon2 : ℝ) :
    distance lat1 lon1 lat2 lon2 = distance lat2 lon2 lat1 lon1 ∧
    distance lat1 lon1 lat1 lon1 = 0 := by
  constructor
  · simp only [distance, radians]
    congr 2
    congr 1
    have h1 : (lat1 - lat2) * (Real.pi / 180) / 2 =
        -((lat2 - lat1) * (Real.pi / 180) / 2) := by ring
    have h2 : (lon1 - lon2) * (Real.pi / 180) / 2 =
        -((lon2 - lon1) * (Real.pi / 180) / 2) := by ring
    rw [h1, h2, Real.sin_neg, Real.sin_neg]
    ring_nf
  · simp only [distance, radians, sub_self, zero_mul, zero_div, Real.sin_zero]
    norm_num [Real.sqrt_zero, Real.arcsin_zero]


/-! ### Node equality (models.py lines 48-52) -/

/-- Decimal digit characters of a natural number, most significant first:
the model of Python str(n) for n ≥ 0. -/
def natStr (n : ℕ) : List Char :=
  if n = 0 then ['0'] else ((Nat.digits 10 n).map Nat.digitChar).reverse

/-- Python str(i) for an int: a minus sign followed by the decimal digits of
the absolute value when negative, the digits alone otherwise. -/
def intStr (i : ℤ) : List Char :=
  if i < 0 then '-' :: natStr i.natAbs else natStr i.natAbs

/-- models.py line 49/52: the hash-key string node{id}v{version}, as a
character list. -/
def nodeKey (n : Node) : List Char :=
  'n' :: 'o' :: 'd' :: 'e' :: (intStr n.id ++ 'v' :: intStr n.version)

/-- models.py lines 51-52 under Python's equality protocol: evaluating
`a == b` calls the eq override on a, which returns the result of comparing
the string key(a) with b; because b is a Node and not a string, that inner
comparison falls back to the reflected eq override on b, which compares
key(b) with the string key(a).  Node-to-Node equality is therefore string
equality of the two hash keys. -/
def nodeEqPy (a b : Node) : Bool := nodeKey b == nodeKey a

theorem digitChar_inj_lt10 :
    ∀ a : ℕ, a < 10 → ∀ b : ℕ, b < 10 → Nat.digitChar a = Nat.digitChar b → a = b := by
  decide

theorem digitChar_ne_sep : ∀ a : ℕ, a < 10 →
    Nat.digitChar a ≠ 'v' ∧ Nat.digitChar a ≠ '-' := by
  decide

theorem map_digitChar_inj :
    ∀ l₁ l₂ : List ℕ, (∀ d ∈ l₁, d < 10) → (∀ d ∈ l₂, d < 10) →
      l₁.map Nat.digitChar = l₂.map Nat.digitChar → l₁ = l₂ := by
  intro l₁
  induction l₁ with
  | nil =>
    intro l₂ _ _ h
    cases l₂ with
    | nil => rfl
    | cons b bs => cases h
  | cons a as ih =>
    intro l₂ h₁ h₂ h
    cases l₂ with
    | nil => cases h
    | cons b bs =>
      simp only [List.map_cons, List.cons.injEq] at h
      have ha : a = b :=
        digitChar_inj_lt10 a (h₁ a (by simp)) b (h₂ b (by simp)) h.1
      have hrest : as = bs :=
        ih bs (fun d hd => h₁ d (by simp [hd])) (fun d hd => h₂ d (by simp [hd])) h.2
      rw [ha, hrest]

theorem natStr_sep_free {c : Char} {n : ℕ} (h : c ∈ natStr n) : c ≠ 'v' ∧ c ≠ '-' := by
  rw [natStr] at h
  by_cases h0 : n = 0
  · rw [if_pos h0] at h
    simp at h
    subst h
    exact ⟨by decide, by decide⟩
  · rw [if_neg h0] at h
    rw [List.mem_reverse] at h
    obtain ⟨d, hd, hdc⟩ := List.mem_map.mp h
    have hlt : d < 10 := Nat.digits_lt_base (by norm_num) hd
    rw [← hdc]
    exact digitChar_ne_sep d hlt

theorem natStr_inj {m n : ℕ} (h : natStr m = natStr n) : m = n := by
  by_cases hm : m = 0 <;> by_cases hn : n = 0
  · rw [hm, hn]
  · exfalso
    rw [natStr, if_pos hm, natStr, if_neg hn] at h
    have h9 : (Nat.digits 10 n).map Nat.digitChar = ['0'] := by
      rw [← List.reverse_reverse (List.map Nat.digitChar (Nat.digits 10 n)), ← h]
      rfl
    have hdig : Nat.digits 10 n = [0] := by
      apply map_digitChar_inj _ [0]
        (fun d hd => Nat.digits_lt_base (by norm_num) hd) (by simp)
      rw [h9]
      rfl
    have := Nat.ofDigits_digits 10 n
    rw [hdig] at this
    simp [Nat.ofDigits] at this
    exact hn this.symm
  · exfalso
    rw [natStr, if_neg hm, natStr, if_pos hn] at h
    have h9 : (Nat.digits 10 m).map Nat.digitChar = ['0'] := by
      rw [← List.reverse_reverse (List.map Nat.digitChar (Nat.digits 10 m)), h]
      rfl
    have hdig : Nat.digits 10 m = [0] := by
      apply map_digitChar_inj _ [0]
        (fun d hd => Nat.digits_lt_base (by norm_num) hd) (by simp)
      rw [h9]
      rfl
    have := Nat.ofDigits_digits 10 m
    rw [hdig] at this
    simp [Nat.ofDigits] at this
    exact hm this.symm
  · rw [natStr, if_neg hm, natStr, if_neg hn] at h
    have hmap : (Nat.digits 10 m).map Nat.digitChar = (Nat.digits 10 n).map Nat.digitChar := by
      rw [← List.reverse_reverse (List.map Nat.digitChar (Nat.digits 10 m)), h,
        List.reverse_reverse]
    have hdig : Nat.digits 10 m = Nat.digits 10 n :=
      map_digitChar_inj _ _ (fun d hd => Nat.digits_lt_base (by norm_num) hd)
        (fun d hd => Nat.digits_lt_base (by norm_num) hd) hmap
    exact Nat.digits_inj_iff.mp hdig

theorem natStr_ne_nil (n : ℕ) : natStr n ≠ [] := by
  rw [natStr]
  by_cases h0 : n = 0
  · rw [if_pos h0]
    simp
  · rw [if_neg h0]
    simp [Nat.digits_ne_nil_iff_ne_zero.mpr h0]

theorem intStr_sep_free {c : Char} {i : ℤ} (h : c ∈ intStr i) : c ≠ 'v' := by
  rw [intStr] at h
  by_cases hi : i < 0
  · rw [if_pos hi] at h
    rcases List.mem_cons.mp h with h | h
    · subst h
      decide
    · exact (natStr_sep_free h).1
  · rw [if_neg hi] at h
    exact (natStr_sep_free h).1

theorem intStr_inj {a b : ℤ} (h : intStr a = intStr b) : a = b := by
  rw [intStr, intStr] at h
  by_cases ha : a < 0 <;> by_cases hb : b < 0
  · rw [if_pos ha, if_pos hb] at h
    simp only [List.cons.injEq, true_and] at h
    have := natStr_inj h
    omega
  · exfalso
    rw [if_pos ha, if_neg hb] at h
    have : '-' ∈ natStr b.natAbs := by
      rw [← h]
      simp
    exact (natStr_sep_free this).2 rfl
  · exfalso
    rw [if_neg ha, if_pos hb] at h
    have : '-' ∈ natStr a.natAbs := by
      rw [h]
      simp
    exact (natStr_sep_free this).2 rfl
  · rw [if_neg ha, if_neg hb] at h
    have := natStr_inj h
    omega

theorem append_sep_inj :
    ∀ (l₁ l₂ t₁ t₂ : List Char), 'v' ∉ l₁ → 'v' ∉ l₂ →
      l₁ ++ 'v' :: t₁ = l₂ ++ 'v' :: t₂ → l₁ = l₂ ∧ t₁ = t₂ := by
  intro l₁
  induction l₁ with
  | nil =>
    intro l₂ t₁ t₂ _ h₂ h
    cases l₂ with
    | nil =>
      simp only [List.nil_append, List.cons.injEq] at h
      exact ⟨rfl, h.2⟩
    | cons c cs =>
      exfalso
      simp only [List.nil_append, List.cons_append, List.cons.injEq] at h
      exact h₂ (by simp [← h.1])
  | cons c cs ih =>
    intro l₂ t₁ t₂ h₁ h₂ h
    cases l₂ with
    | nil =>
      exfalso
      simp only [List.cons_append, List.nil_append, List.cons.injEq] at h
      exact h₁ (by simp [h.1])
    | cons d ds =>
      simp only [List.cons_append, List.cons.injEq] at h
      obtain ⟨hcs, hts⟩ := ih ds t₁ t₂ (fun hc => h₁ (by simp [hc]))
        (fun hc => h₂ (by simp [hc])) h.2
      exact ⟨by rw [h.1, hcs], hts⟩

theorem nodeKey_inj {a b : Node} (h : nodeKey a = nodeKey b) :
    a.id = b.id ∧ a.version = b.version := by
  simp only [nodeKey, List.cons.injEq, true_and] at h
  obtain ⟨hid, hver⟩ := append_sep_inj (intStr a.id) (intStr b.id)
    (intStr a.version) (intStr b.version)
    (fun hc => intStr_sep_free hc rfl) (fun hc => intStr_sep_free hc rfl) h
  exact ⟨intStr_inj hid, intStr_inj hver⟩

/-- C8: Node-to-Node equality under the source's eq override is keyed on
exactly the pair (identifier, version) — independent of coordinates, tags
and metadata — and is symmetric. -/
theorem C8_node_equality (a b : Node) :
    (nodeEqPy a b = true ↔ a.id = b.id ∧ a.version = b.version) ∧
    nodeEqPy a b = nodeEqPy b a := by
  refine ⟨⟨?_, ?_⟩, ?_⟩
  · intro h
    have hk : nodeKey b = nodeKey a := by simpa [nodeEqPy] using h
    obtain ⟨h1, h2⟩ := nodeKey_inj hk
    exact ⟨h1.symm, h2.symm⟩
  · intro hiv
    simp [nodeEqPy, nodeKey, hiv.1, hiv.2]
  · by_cases h : nodeKey a = nodeKey b
    · simp [nodeEqPy, h]
    · have h2 : nodeKey b ≠ nodeKey a := fun hc => h hc.symm
      simp [nodeEqPy, h, h2]


/-! ### Drift detection (main.py lines 33-89) -/

/-- A raw node record served by the remote API (the dict fields that
`compare_db_data_to_api` reads).  A point absent remotely is modelled by the
lookup returning `none`. -/
structure RNode where
  id : Int
  version : Int
  lat : Option ℚ
  lon : Option ℚ
  tag : List (String × String)
  visible : MetaV
  changeset : MetaV
  timestamp : MetaV
  user : MetaV
  uid : MetaV
deriving DecidableEq, Repr

/-- models.py lines 55-60: the old/new pair of an upgraded node. -/
structure NodeComparison where
  old : Node
  new : Node
deriving DecidableEq, Repr

/-- models.py lines 65-71: the partitioned comparison report. -/
structure ComparisonResults where
  unchanged : List Node
  new_version_in_osm : List NodeComparison
deriving DecidableEq, Repr

/-- The logger.error reports of the drift loop (main.py lines 71-76). -/
inductive DriftError
  | versionRegression (id localVersion remoteVersion : Int)
  | notFound (id : Int)
deriving DecidableEq, Repr

/-- main.py lines 55-68: the Node built from a remote record during an
upgrade. -/
def rnodeToNode (r : RNode) : Node :=
  ⟨r.id, r.version, r.lat, r.lon, r.tag,
    [("visible", r.visible), ("changeset", r.changeset), ("timestamp", r.timestamp),
     ("user", r.user), ("uid", r.uid)]⟩

/-- main.py lines 47-76: the drift-detection loop of
`compare_db_data_to_api`.  For each locally stored node in the batch, the
remote record with the same identifier is looked up; equal versions append
the local node to `unchanged`, a strictly newer remote version records an
old/new pair, a strictly older remote version reports a regression error,
and a missing remote record reports a not-found error.  Errors never stop
the fold.  The surrounding I/O (database read, capped batch selection,
optional write-back) happens outside this loop. -/
def compare_db_data_to_api (remote : Int → Option RNode) (nodes_in_db : List Node) :
    ComparisonResults × List DriftError :=
  nodes_in_db.foldl
    (fun acc dbnode =>
      match remote dbnode.id with
      | some osmnode =>
        if osmnode.version = dbnode.version then
          ({ acc.1 with unchanged := acc.1.unchanged ++ [dbnode] }, acc.2)
        else if osmnode.version > dbnode.version then
          ({ acc.1 with new_version_in_osm :=
              acc.1.new_version_in_osm ++ [⟨dbnode, rnodeToNode osmnode⟩] }, acc.2)
        else
          (acc.1, acc.2 ++ [DriftError.versionRegression dbnode.id dbnode.version osmnode.version])
      | none => (acc.1, acc.2 ++ [DriftError.notFound dbnode.id]))
    (⟨⟨[], []⟩, []⟩)

/-- The nodes of a batch whose remote version equals the local version. -/
def unchangedOf (remote : Int → Option RNode) (nodes : List Node) : List Node :=
  nodes.filter (fun n =>
    match remote n.id with
    | some r => r.version == n.version
    | none => false)

/-- The old/new pairs of the batch nodes with a strictly newer remote
version. -/
def upgradesOf (remote : Int → Option RNode) (nodes : List Node) : List NodeComparison :=
  nodes.filterMap (fun n =>
    match remote n.id with
    | some r => if r.version > n.version then some ⟨n, rnodeToNode r⟩ else none
    | none => none)

/-- The error reports of the batch: one regression report per node whose
remote version is strictly older, one not-found report per node absent
remotely. -/
def driftErrorsOf (remote : Int → Option RNode) (nodes : List Node) : List DriftError :=
  nodes.filterMap (fun n =>
    match remote n.id with
    | some r =>
      if r.version < n.version then
        some (DriftError.versionRegression n.id n.version r.version)
      else none
    | none => some (DriftError.notFound n.id))

theorem compare_fold_characterization (remote : Int → Option RNode)
    (nodes : List Node) (acc : ComparisonResults × List DriftError) :
    nodes.foldl
      (fun acc dbnode =>
        match remote dbnode.id with
        | some osmnode =>
          if osmnode.version = dbnode.version then
            ({ acc.1 with unchanged := acc.1.unchanged ++ [dbnode] }, acc.2)
          else if osmnode.version > dbnode.version then
            ({ acc.1 with new_version_in_osm :=
                acc.1.new_version_in_osm ++ [⟨dbnode, rnodeToNode osmnode⟩] }, acc.2)
          else
            (acc.1, acc.2 ++ [DriftError.versionRegression dbnode.id dbnode.version osmnode.version])
        | none => (acc.1, acc.2 ++ [DriftError.notFound dbnode.id])) acc =
      (⟨acc.1.unchanged ++ unchangedOf remote nodes,
        acc.1.new_version_in_osm ++ upgradesOf remote nodes⟩,
       acc.2 ++ driftErrorsOf remote nodes) := by
  induction nodes generalizing acc with
  | nil => simp [unchangedOf, upgradesOf, driftErrorsOf]
  | cons n rest ih =>
    rw [List.foldl_cons, ih]
    rcases hr : remote n.id with _ | r
    · simp [unchangedOf, upgradesOf, driftErrorsOf, hr, List.filter_cons,
        List.filterMap_cons]
    · rcases lt_trichotomy r.version n.version with hlt | heq | hgt
      · have hne : ¬ r.version = n.version := ne_of_lt hlt
        have hng : ¬ r.version > n.version := not_lt_of_gt hlt
        simp [unchangedOf, upgradesOf, driftErrorsOf, hr, hne, hng, hlt,
          List.filter_cons, List.filterMap_cons]
      · have hng : ¬ r.version > n.version := by omega
        simp [unchangedOf, upgradesOf, driftErrorsOf, hr, heq, hng,
          List.filter_cons, List.filterMap_cons]
      · have hne : ¬ r.version = n.version := by omega
        have hnl : ¬ r.version < n.version := by omega
        simp [unchangedOf, upgradesOf, driftErrorsOf, hr, hne, hgt, hnl,
          List.filter_cons, List.filterMap_cons]

/-- C9: the drift-detection loop classifies every point of the batch:
equal remote version appends it to `unchanged`, a strictly greater remote
version records the old/new upgrade pair, a strictly smaller remote version
yields a regression report, and an absent remote record yields a not-found
report — and every point of the batch is processed (errors do not halt the
fold). -/
theorem C9_drift_classification (remote : Int → Option RNode) (nodes_in_db : List Node) :
    compare_db_data_to_api remote nodes_in_db =
      (⟨unchangedOf remote nodes_in_db, upgradesOf remote nodes_in_db⟩,
       driftErrorsOf remote nodes_in_db) := by
  rw [compare_db_data_to_api, compare_fold_characterization]
  simp


end Synchrosm
